import Mathlib

/-!
Verification development for the secret-santa repository.

The TypeScript sources under src/utils (csvParser.ts, encryption.ts) are
shallowly embedded below.  JavaScript strings are modelled as lists of
natural-number character codes (type Str); byte arrays likewise.  The
Web Crypto platform primitives (PBKDF2, AES-GCM, SHA-256) and the
randomness sources (Math.random, crypto.getRandomValues) are not code of
this repository: randomness is passed in explicitly as oracle arguments,
and the cryptographic primitives are modelled as ideal executable
primitives that keep exactly the functional properties the code relies
on (determinism, inversion under the same key, authentication failure
otherwise, collision-free digests).  Thrown JavaScript errors are
modelled with an explicit error type and the Except monad.
-/


/-- Character-code strings: the model of JavaScript strings and byte arrays. -/
abbrev Str := List Nat

/-- Errors thrown by the embedded code, one constructor per throw site. -/
inductive JsError : Type
  /-- parseCSV: CSV must have at least a header row and one data row. -/
  | csvTooShort : JsError
  /-- parseCSV: missing required columns. -/
  | missingColumns : List Str → JsError
  /-- parseCSV: line i+1 has insufficient columns (expected, found). -/
  | insufficientColumns : Nat → Nat → Nat → JsError
  /-- parseCSV: line i+1 has empty name field. -/
  | emptyName : Nat → JsError
  /-- generateSecretSantaAssignments: need at least 2 participants. -/
  | needTwoParticipants : JsError
  /-- generateValidAssignment: person cannot be their own Secret Santa. -/
  | selfAssignment : JsError
  /-- generateValidAssignment: significant others cannot be assigned to each other. -/
  | soAssignment : JsError
  /-- generateSecretSantaAssignments: could not generate valid assignments after maximum attempts. -/
  | maxAttemptsExceeded : JsError
  /-- decryptData wrapper: failed to decrypt data, with the underlying detail. -/
  | decryptFailed : JsError → JsError
  /-- atob: invalid base64 input (InvalidCharacterError). -/
  | invalidCharacter : JsError
  /-- crypto.subtle.decrypt: authentication failure (OperationError). -/
  | operationError : JsError
  /-- findAndDecryptAssignment wrapper: failed to decrypt assignment. -/
  | findFailed : JsError → JsError
  deriving DecidableEq, Repr

/-- Participant record from csvParser.ts. -/
structure Participant : Type where
  name : Str
  bio : Str
  significantOther : Str
  deriving DecidableEq, Repr

/-- SecretSantaAssignment record from csvParser.ts. -/
structure SecretSantaAssignment : Type where
  giver : Str
  recipient : Str
  recipientBio : Str
  deriving DecidableEq, Repr

/-- JavaScript toLowerCase on a single ASCII character code. -/
def toLowerCode (c : Nat) : Nat :=
  if 65 ≤ c ∧ c ≤ 90 then c + 32 else c

/-- JavaScript String.prototype.toLowerCase, on the ASCII fragment the data uses. -/
def jsToLower (s : Str) : Str := s.map toLowerCode

/-- Lookup in a JavaScript Map or plain object built by repeated set/assignment:
the most recent binding of a key wins. -/
def jsGet (m : List (Str × Str)) (k : Str) : Option Str :=
  match m with
  | [] => none
  | (k₀, v₀) :: rest =>
    match jsGet rest k with
    | some v => some v
    | none => if k₀ = k then some v₀ else none

/-- The significant-other map built at the start of generateSecretSantaAssignments:
for each participant with a nonempty SO field, lowercased name maps to lowercased SO.
Entries are inserted in list order, so a later duplicate key overwrites an earlier
one, which jsGet models by preferring later entries. -/
def mkSoMap (participants : List Participant) : List (Str × Str) :=
  participants.filterMap (fun p =>
    if p.significantOther = [] then none
    else some (jsToLower p.name, jsToLower p.significantOther))

/-- The areSignificantOthers closure from generateSecretSantaAssignments. -/
def areSignificantOthers (soMap : List (Str × Str)) (name1 name2 : Str) : Bool :=
  jsGet soMap (jsToLower name1) = some (jsToLower name2) ∨
    jsGet soMap (jsToLower name2) = some (jsToLower name1)

/-- The destructuring swap of two positions of an array, as used in the
Fisher-Yates loop of generateValidAssignment. -/
def listSwap (l : List α) (i j : Nat) : List α :=
  match l[i]?, l[j]? with
  | some a, some b => (l.set i b).set j a
  | _, _ => l

/-- The Fisher-Yates loop of generateValidAssignment, counting i down to 1.
The random draw for index i is rand i; Math.floor(Math.random() * (i + 1))
ranges over 0..i, which rand i % (i + 1) reproduces for every oracle rand. -/
def fisherYatesAux (rand : Nat → Nat) : List α → Nat → List α
  | cur, 0 => cur
  | cur, Nat.succ k =>
    fisherYatesAux rand (listSwap cur (k + 1) (rand (k + 1) % (k + 2))) k

/-- Shuffle of the recipients copy in generateValidAssignment. -/
def fisherYates (rand : Nat → Nat) (l : List α) : List α :=
  fisherYatesAux rand l (l.length - 1)

/-- The validation-and-build loop of generateValidAssignment: walk givers and
recipients positionally, throwing on a self-assignment or a significant-other
pair, otherwise emitting the assignment record. -/
def buildAssignments (areSO : Str → Str → Bool) :
    List Participant → List Participant → Except JsError (List SecretSantaAssignment)
  | [], _ => .ok []
  | _ :: _, [] => .error .selfAssignment
  | g :: gs, r :: rs =>
    if g.name = r.name then .error .selfAssignment
    else if areSO g.name r.name then .error .soAssignment
    else
      match buildAssignments areSO gs rs with
      | .error e => .error e
      | .ok rest => .ok ({ giver := g.name, recipient := r.name, recipientBio := r.bio } :: rest)

/-- One attempt of generateValidAssignment: shuffle a copy of the participants
as recipients, then validate and build. -/
def generateValidAssignment (areSO : Str → Str → Bool) (participants : List Participant)
    (rand : Nat → Nat) : Except JsError (List SecretSantaAssignment) :=
  buildAssignments areSO participants (fisherYates rand participants)

/-- The bounded retry loop of generateSecretSantaAssignments: attempt k uses the
random oracle rand k; a thrown error is caught and the next attempt runs, and
exhausting the fuel throws the maximum-attempts error. -/
def attemptLoop (areSO : Str → Str → Bool) (participants : List Participant)
    (rand : Nat → Nat → Nat) : Nat → Nat → Except JsError (List SecretSantaAssignment)
  | _, 0 => .error .maxAttemptsExceeded
  | k, Nat.succ fuel =>
    match generateValidAssignment areSO participants (rand k) with
    | .ok a => .ok a
    | .error _ => attemptLoop areSO participants rand (k + 1) fuel

/-- The retry ceiling of generateSecretSantaAssignments. -/
def maxAttempts : Nat := 1000

/-- generateSecretSantaAssignments from csvParser.ts, with the per-attempt
Math.random draws supplied by the oracle rand (attempt index, then draw index). -/
def generateSecretSantaAssignments (participants : List Participant)
    (rand : Nat → Nat → Nat) : Except JsError (List SecretSantaAssignment) :=
  if participants.length < 2 then .error .needTwoParticipants
  else attemptLoop (areSignificantOthers (mkSoMap participants)) participants rand 0 maxAttempts

/-- Whitespace recognized by JavaScript String.prototype.trim on the ASCII range. -/
def isJsWhitespace (c : Nat) : Bool :=
  c = 32 || c = 9 || c = 10 || c = 11 || c = 12 || c = 13

/-- JavaScript String.prototype.trim. -/
def jsTrim (s : Str) : Str :=
  ((s.dropWhile isJsWhitespace).reverse.dropWhile isJsWhitespace).reverse

/-- JavaScript String.prototype.split with a one-character separator. -/
def splitByte (sep : Nat) : Str → Str → List Str
  | [], cur => [cur.reverse]
  | c :: rest, cur =>
    if c = sep then cur.reverse :: splitByte sep rest []
    else splitByte sep rest (c :: cur)

/-- Splitting a string on a separator character, as csvContent.trim().split and
line splitting use it. -/
def jsSplit (sep : Nat) (s : Str) : List Str := splitByte sep s []

/-- The quote-aware field scanner of parseCSVLine: walk the characters tracking
the in-quotes state, translating doubled quotes inside quotes to a literal
quote, and closing a field at an unquoted comma. -/
def parseCSVLineAux : Str → Str → Bool → List Str
  | [], cur, _ => [jsTrim cur.reverse]
  | 34 :: 34 :: rest, cur, true => parseCSVLineAux rest (34 :: cur) true
  | 34 :: rest, cur, inQuotes => parseCSVLineAux rest cur (!inQuotes)
  | 44 :: rest, cur, false => jsTrim cur.reverse :: parseCSVLineAux rest [] false
  | c :: rest, cur, inQuotes => parseCSVLineAux rest (c :: cur) inQuotes

/-- parseCSVLine from csvParser.ts: scan the fields, then pad with empty
strings so at least three columns come back. -/
def parseCSVLine (line : Str) : List Str :=
  let values := parseCSVLineAux line [] false
  values ++ List.replicate (3 - values.length) []

/-- Character codes of the lowercased required header names name, bio and so. -/
def nameHeader : Str := [110, 97, 109, 101]

/-- Character codes of the bio header. -/
def bioHeader : Str := [98, 105, 111]

/-- Character codes of the so header. -/
def soHeader : Str := [115, 111]

/-- The data-row loop of parseCSV: skip blank lines, demand enough columns,
demand a nonempty name, and build the participant records in order.  The
counter i is the index of the current line in the split file, so thrown
messages carry i + 1 as in the source. -/
def parseRows (nameIndex bioIndex soIndex : Nat) :
    List Str → Nat → Except JsError (List Participant)
  | [], _ => .ok []
  | line :: restLines, i =>
    let l := jsTrim line
    if l = [] then parseRows nameIndex bioIndex soIndex restLines (i + 1)
    else
      let values := parseCSVLine l
      let needed := max nameIndex (max bioIndex soIndex) + 1
      if values.length < needed then
        .error (.insufficientColumns (i + 1) needed values.length)
      else
        let pname := jsTrim (values.getD nameIndex [])
        let pbio := jsTrim (values.getD bioIndex [])
        let pso := jsTrim (values.getD soIndex [])
        if pname = [] then .error (.emptyName (i + 1))
        else
          match parseRows nameIndex bioIndex soIndex restLines (i + 1) with
          | .error e => .error e
          | .ok rest => .ok ({ name := pname, bio := pbio, significantOther := pso } :: rest)

/-- parseCSV from csvParser.ts. -/
def parseCSV (csvContent : Str) : Except JsError (List Participant) :=
  let lines := jsSplit 10 (jsTrim csvContent)
  if lines.length < 2 then .error .csvTooShort
  else
    let headers := (jsSplit 44 (lines.getD 0 [])).map (fun h => jsToLower (jsTrim h))
    let requiredColumns := [nameHeader, bioHeader, soHeader]
    let missing := requiredColumns.filter (fun c => !headers.contains c)
    if missing ≠ [] then .error (.missingColumns missing)
    else
      let nameIndex := headers.indexOf nameHeader
      let bioIndex := headers.indexOf bioHeader
      let soIndex := headers.indexOf soHeader
      parseRows nameIndex bioIndex soIndex (lines.drop 1) 1

/-- Decidable equality for Except results, used to evaluate concrete runs. -/
instance {ε α : Type} [DecidableEq ε] [DecidableEq α] : DecidableEq (Except ε α) :=
  fun a b =>
    match a, b with
    | .ok x, .ok y =>
      if h : x = y then .isTrue (by rw [h]) else .isFalse (by intro he; cases he; exact h rfl)
    | .error e, .error f =>
      if h : e = f then .isTrue (by rw [h]) else .isFalse (by intro he; cases he; exact h rfl)
    | .ok _, .error _ => .isFalse (by intro h; cases h)
    | .error _, .ok _ => .isFalse (by intro h; cases h)

/-- Modelled platform primitive: a fixed keyed mixing core used to realize the
Web Crypto functions below executably.  Only determinism and concrete
distinguishability matter; no claim concerns the numeric values. -/
def rollHash (l : List Nat) : Nat :=
  l.foldl (fun h b => ((h ^^^ b) * 16777619) % (2 ^ 64)) 2166136261

/-- Modelled platform primitive: the AES-CTR keystream byte of AES-GCM at
position i under the given key and IV. -/
def prfByte (key iv : Str) (i : Nat) : Nat :=
  rollHash (key ++ iv ++ [i]) % 256

/-- Keystream masking of the message body, the invertible half of the
idealized AES-GCM: byte positions count from i. -/
def gcmMask (key iv : Str) : Nat → Str → Str
  | _, [] => []
  | i, b :: bs => (b ^^^ prfByte key iv i) :: gcmMask key iv (i + 1) bs

/-- The 16-byte authentication tag of the idealized AES-GCM. -/
def gcmTag (key iv c : Str) : Str :=
  (List.range 16).map (fun t => rollHash (key ++ iv ++ c ++ [t]) % 256)

/-- Modelled platform primitive crypto.subtle.encrypt with AES-GCM: the
masked body followed by the 16-byte tag. -/
def gcmEncrypt (key iv m : Str) : Str :=
  gcmMask key iv 0 m ++ gcmTag key iv (gcmMask key iv 0 m)

/-- Modelled platform primitive crypto.subtle.decrypt with AES-GCM: split off
the 16-byte tag, verify it, and unmask; verification failure (wrong key,
truncated input or tampering) yields none, which the caller surfaces as an
OperationError. -/
def gcmDecrypt (key iv blob : Str) : Option Str :=
  if blob.length < 16 then none
  else
    let c := blob.take (blob.length - 16)
    let tag := blob.drop (blob.length - 16)
    if tag = gcmTag key iv c then some (gcmMask key iv 0 c) else none

/-- Modelled platform primitive: PBKDF2-SHA-256 with 100000 iterations and a
256-bit output, as deriveKey in encryption.ts configures it.  Deterministic in
the passphrase and salt, which is all the code relies on. -/
def deriveKey (passphrase salt : Str) : Str :=
  (List.range 32).map (fun t => rollHash (passphrase ++ [256] ++ salt ++ [t]) % 256)

/-- Modelled platform primitive crypto.subtle.digest with SHA-256: an ideal
collision-free digest, realized executably by the identity on byte sequences,
which keeps exactly the determinism and injectivity the code relies on. -/
def subtleDigest (data : Str) : Str := data

/-- Code of one lowercase hexadecimal digit, as b.toString(16) produces. -/
def hexDigitCode (n : Nat) : Nat := if n < 10 then 48 + n else 87 + n

/-- Two-character lowercase hex form of one byte, padStart(2, 0) included. -/
def hexByte (b : Nat) : Str := [hexDigitCode (b / 16 % 16), hexDigitCode (b % 16)]

/-- Hex encoding of a byte sequence, as the hashArray map-join produces. -/
def hexEncode : Str → Str
  | [] => []
  | b :: bs => hexByte b ++ hexEncode bs

/-- hashPassphrase from encryption.ts: the hex-encoded digest of the UTF-8
passphrase bytes, used as the lookup key. -/
def hashPassphrase (passphrase : Str) : Str := hexEncode (subtleDigest passphrase)

/-- Character codes of the standard base64 alphabet, index 0 to 63. -/
def base64Alphabet : Str :=
  [65, 66, 67, 68, 69, 70, 71, 72, 73, 74, 75, 76, 77, 78, 79, 80, 81, 82, 83, 84, 85, 86,
   87, 88, 89, 90, 97, 98, 99, 100, 101, 102, 103, 104, 105, 106, 107, 108, 109, 110, 111,
   112, 113, 114, 115, 116, 117, 118, 119, 120, 121, 122, 48, 49, 50, 51, 52, 53, 54, 55,
   56, 57, 43, 47]

/-- Alphabet character of one sextet value; 61 is the padding code. -/
def sextetChar (s : Nat) : Nat := base64Alphabet.getD s 61

/-- Linear scan of the base64 alphabet, the inverse lookup of atob. -/
def charSextetAux : List Nat → Nat → Nat → Option Nat
  | [], _, _ => none
  | a :: rest, c, i => if a = c then some i else charSextetAux rest c (i + 1)

/-- Sextet value of one alphabet character, none for a foreign character. -/
def charSextet (c : Nat) : Option Nat := charSextetAux base64Alphabet c 0

/-- Modelled platform primitive btoa over the byte string: standard base64
with trailing padding. -/
def encodeB64 : Str → Str
  | [] => []
  | [a] => [sextetChar (a / 4), sextetChar (a % 4 * 16), 61, 61]
  | [a, b] => [sextetChar (a / 4), sextetChar (a % 4 * 16 + b / 16), sextetChar (b % 16 * 4), 61]
  | a :: b :: c :: rest =>
    sextetChar (a / 4) :: sextetChar (a % 4 * 16 + b / 16) ::
      sextetChar (b % 16 * 4 + c / 64) :: sextetChar (c % 64) :: encodeB64 rest

/-- Modelled platform primitive atob: groups of four characters decode to
three bytes, with the final group allowed one or two padding characters;
anything else is an InvalidCharacterError, modelled as none. -/
def decodeB64 : Str → Option Str
  | [] => some []
  | w :: x :: y :: z :: rest =>
    if y = 61 ∧ z = 61 ∧ rest = [] then
      match charSextet w, charSextet x with
      | some s1, some s2 => some [s1 * 4 + s2 / 16]
      | _, _ => none
    else if z = 61 ∧ rest = [] then
      match charSextet w, charSextet x, charSextet y with
      | some s1, some s2, some s3 => some [s1 * 4 + s2 / 16, s2 % 16 * 16 + s3 / 4]
      | _, _, _ => none
    else
      match charSextet w, charSextet x, charSextet y, charSextet z, decodeB64 rest with
      | some s1, some s2, some s3, some s4, some tail =>
        some ((s1 * 4 + s2 / 16) :: (s2 % 16 * 16 + s3 / 4) :: (s3 % 4 * 64 + s4) :: tail)
      | _, _, _, _, _ => none
  | _ => none

/-- encryptData from encryption.ts, with the random 16-byte salt and 12-byte
IV drawn by crypto.getRandomValues passed in explicitly: derive the key,
encrypt, concatenate salt, IV and ciphertext, and base64 the result. -/
def encryptData (data passphrase salt iv : Str) : Str :=
  encodeB64 (salt ++ iv ++ gcmEncrypt (deriveKey passphrase salt) iv data)

/-- decryptData from encryption.ts: base64-decode, split off the 16-byte salt
and 12-byte IV, re-derive the key and decrypt.  Every failure inside the try
block is caught and re-thrown as the generic failed-to-decrypt error carrying
the underlying detail. -/
def decryptData (encryptedData passphrase : Str) : Except JsError Str :=
  match decodeB64 encryptedData with
  | none => .error (.decryptFailed .invalidCharacter)
  | some combined =>
    let salt := combined.take 16
    let iv := (combined.drop 16).take 12
    let encrypted := combined.drop 28
    match gcmDecrypt (deriveKey passphrase salt) iv encrypted with
    | none => .error (.decryptFailed .operationError)
    | some decrypted => .ok decrypted

/-- findAndDecryptAssignment from encryption.ts: hash the passphrase, look it
up among the encrypted assignments, return null when absent (or bound to a
falsy empty string), otherwise decrypt; a thrown decryption error is re-thrown
wrapped as the failed-to-decrypt-assignment error. -/
def findAndDecryptAssignment (encryptedAssignments : List (Str × Str)) (passphrase : Str) :
    Except JsError (Option Str) :=
  match jsGet encryptedAssignments (hashPassphrase passphrase) with
  | none => .ok none
  | some encryptedAssignment =>
    if encryptedAssignment = [] then .ok none
    else
      match decryptData encryptedAssignment passphrase with
      | .ok decrypted => .ok (some decrypted)
      | .error e => .error (.findFailed e)

/-- decryptLegacyData from encryption.ts: backward-compatible v1.0 reading,
delegating to decryptData. -/
def decryptLegacyData (encryptedData passphrase : Str) : Except JsError Str :=
  decryptData encryptedData passphrase

/-- One artifact row as the v2.0 build pipeline produces it: a participant
secret, that participant's serialized assignment payload, and the fresh salt
and IV drawn for its encryption. -/
structure ArtifactEntry : Type where
  secret : Str
  payload : Str
  salt : Str
  iv : Str
  deriving DecidableEq, Repr

/-- Well-formedness of one artifact row: the salt and IV have the drawn
sizes and every component is a byte string. -/
def ArtifactEntry.wf (e : ArtifactEntry) : Prop :=
  e.salt.length = 16 ∧ e.iv.length = 12 ∧
    (∀ b ∈ e.payload, b < 256) ∧ (∀ b ∈ e.salt, b < 256) ∧
    (∀ b ∈ e.iv, b < 256) ∧ (∀ b ∈ e.secret, b < 256)

/-- Well-formedness of an artifact row is decidable, so concrete rows evaluate. -/
instance : DecidablePred ArtifactEntry.wf := fun e => by
  unfold ArtifactEntry.wf
  infer_instance

/-- The artifact record map of the v2.0 format: for each participant, the
hashed secret keys that participant's individually encrypted payload. -/
def buildRecords : List ArtifactEntry → List (Str × Str)
  | [] => []
  | e :: rest =>
    (hashPassphrase e.secret, encryptData e.payload e.secret e.salt e.iv) :: buildRecords rest

set_option maxRecDepth 1000000

/-- Concrete secret a (code 97) for the recovery failure analysis. -/
def c4SecretA : Str := [97]

/-- Concrete secret b (code 98) for the recovery failure analysis. -/
def c4SecretB : Str := [98]

/-- Concrete encrypted blob: the payload [104] under secret a with zero salt and IV. -/
def c4Blob : Str := encryptData [104] c4SecretA (List.replicate 16 0) (List.replicate 12 0)

/-- Tampering with a blob: replace its first character by a different
base64-alphabet character, keeping the blob well-formed base64. -/
def corruptFirst : Str → Str
  | [] => []
  | c :: rest => (if c = 65 then 66 else 65) :: rest

/-- An artifact whose sole record stores, under the hash of secret b, a blob
encrypted under secret a: recovery with b decrypts under the wrong secret. -/
def c4RecordsWrongKey : List (Str × Str) := [(hashPassphrase c4SecretB, c4Blob)]

/-- An artifact whose sole record is a tampered blob under the correct hash. -/
def c4RecordsTampered : List (Str × Str) := [(hashPassphrase c4SecretA, corruptFirst c4Blob)]

/-- An artifact keyed only by the hash of secret a: recovery with b finds no key. -/
def c4RecordsAbsent : List (Str × Str) := [(hashPassphrase c4SecretA, c4Blob)]

/-- Modelled from the spec: the word-bank secret generator of the build
pipeline lives in scripts/generate_assignments.py, which is absent from the
sources here (only its scripts/README.md documentation remains).  Following
section 4.1, each secret is drawn from a random candidate stream, and the
per-secret retry ceiling bounds the regeneration attempts. -/
def secretMaxAttempts : Nat := 1000

/-- Modelled from the spec: draw one fresh secret.  A candidate drawn from
the stream at position t is checked for membership in the set produced so
far and redrawn on collision, up to the bounded number of attempts; the
successful candidate comes back with the next stream position. -/
def genOneSecret (draw : Nat → Str) (acc : List Str) : Nat → Nat → Option (Str × Nat)
  | _, 0 => none
  | t, Nat.succ fuel =>
    if draw t ∈ acc then genOneSecret draw acc (t + 1) fuel
    else some (draw t, t + 1)

/-- Modelled from the spec: accumulate count fresh secrets, threading the
candidate-stream position; exhausting the per-secret attempt bound is the
fatal secret-space-too-small outcome, modelled as none. -/
def genSecretsAux (draw : Nat → Str) : Nat → List Str → Nat → Option (List Str)
  | 0, acc, _ => some acc.reverse
  | Nat.succ n, acc, t =>
    match genOneSecret draw acc t secretMaxAttempts with
    | none => none
    | some (c, tNext) => genSecretsAux draw n (c :: acc) tNext

/-- Modelled from the spec: the secret generator, producing count secrets
from the random candidate stream or failing on attempt exhaustion. -/
def generateSecrets (draw : Nat → Str) (count : Nat) : Option (List Str) :=
  genSecretsAux draw count [] 0

/-- Replacing the element at position m and consing the removed element yields
a permutation of consing the new element. -/
theorem get_cons_set_perm (t : List α) (m : Nat) (h : m < t.length) (a : α) :
    (t.get ⟨m, h⟩ :: t.set m a).Perm (a :: t) := by
  induction t generalizing m with
  | nil => simp at h
  | cons x xs ih =>
    cases m with
    | zero =>
      simpa using List.Perm.swap a x xs
    | succ k =>
      have h1 : k < xs.length := Nat.lt_of_succ_lt_succ h
      simp only [List.get, List.set]
      exact ((List.Perm.swap x _ _).trans ((ih k h1).cons x)).trans (List.Perm.swap a x xs)

/-- The two-sets form of an in-range swap is a permutation. -/
theorem set_set_perm (l : List α) (i j : Nat) (hi : i < l.length) (hj : j < l.length) :
    ((l.set i (l.get ⟨j, hj⟩)).set j (l.get ⟨i, hi⟩)).Perm l := by
  induction l generalizing i j with
  | nil => simp at hi
  | cons x xs ih =>
    cases i with
    | zero =>
      cases j with
      | zero => simp
      | succ m =>
        have hm : m < xs.length := Nat.lt_of_succ_lt_succ hj
        simp only [List.get, List.set]
        exact get_cons_set_perm xs m hm x
    | succ k =>
      have hk : k < xs.length := Nat.lt_of_succ_lt_succ hi
      cases j with
      | zero =>
        simp only [List.get, List.set]
        exact get_cons_set_perm xs k hk x
      | succ m =>
        have hm : m < xs.length := Nat.lt_of_succ_lt_succ hj
        simp only [List.get, List.set]
        exact (ih k m hk hm).cons x

/-- A destructuring swap of two positions is a permutation of the array. -/
theorem listSwap_perm (l : List α) (i j : Nat) : (listSwap l i j).Perm l := by
  unfold listSwap
  split
  · next a b ha hb =>
    obtain ⟨hi, hia⟩ := List.getElem?_eq_some_iff.mp ha
    obtain ⟨hj, hjb⟩ := List.getElem?_eq_some_iff.mp hb
    subst hia
    subst hjb
    exact set_set_perm l i j hi hj
  · exact List.Perm.refl l

/-- Every Fisher-Yates pass returns a permutation of its input. -/
theorem fisherYatesAux_perm (rand : Nat → Nat) (cur : List α) (n : Nat) :
    (fisherYatesAux rand cur n).Perm cur := by
  induction n generalizing cur with
  | zero => exact List.Perm.refl cur
  | succ k ih =>
    exact (ih _).trans (listSwap_perm cur (k + 1) (rand (k + 1) % (k + 2)))

/-- The shuffled recipients list is a permutation of the participants. -/
theorem fisherYates_perm (rand : Nat → Nat) (l : List α) : (fisherYates rand l).Perm l :=
  fisherYatesAux_perm rand l (l.length - 1)

/-- Structure of a successful validation pass: givers keep their order, the
recipients are read off positionally, and every emitted pair passed both the
self-assignment check and the significant-other check. -/
theorem buildAssignments_ok (areSO : Str → Str → Bool) :
    ∀ (gs rs : List Participant) (A : List SecretSantaAssignment),
    rs.length = gs.length →
    buildAssignments areSO gs rs = .ok A →
    A.map (·.giver) = gs.map (·.name) ∧
    A.map (·.recipient) = rs.map (·.name) ∧
    (∀ a ∈ A, a.giver ≠ a.recipient ∧ areSO a.giver a.recipient = false) := by
  intro gs
  induction gs with
  | nil =>
    intro rs A hlen hok
    cases rs with
    | nil =>
      simp only [buildAssignments] at hok
      cases hok
      simp
    | cons r rs => simp at hlen
  | cons g gs ih =>
    intro rs A hlen hok
    cases rs with
    | nil => simp at hlen
    | cons r rs =>
      simp only [buildAssignments] at hok
      split at hok
      · cases hok
      · split at hok
        · cases hok
        · next hname hso =>
          cases hrec : buildAssignments areSO gs rs with
          | error e => rw [hrec] at hok; cases hok
          | ok rest =>
            rw [hrec] at hok
            cases hok
            have hlen2 : rs.length = gs.length := by simpa using hlen
            obtain ⟨h1, h2, h3⟩ := ih rs rest hlen2 hrec
            refine ⟨by simp [h1], by simp [h2], ?_⟩
            intro a ha
            rcases List.mem_cons.mp ha with rfl | hmem
            · exact ⟨hname, Bool.not_eq_true _ ▸ hso⟩
            · exact h3 a hmem

/-- A successful retry loop comes from a successful attempt inside the fuel window. -/
theorem attemptLoop_ok (areSO : Str → Str → Bool) (ps : List Participant)
    (rand : Nat → Nat → Nat) :
    ∀ (fuel k : Nat) (A : List SecretSantaAssignment),
    attemptLoop areSO ps rand k fuel = .ok A →
    ∃ j, k ≤ j ∧ j < k + fuel ∧ generateValidAssignment areSO ps (rand j) = .ok A := by
  intro fuel
  induction fuel with
  | zero => intro k A h; cases h
  | succ f ih =>
    intro k A h
    simp only [attemptLoop] at h
    cases hatt : generateValidAssignment areSO ps (rand k) with
    | ok a =>
      rw [hatt] at h
      cases h
      exact ⟨k, Nat.le_refl k, Nat.lt_add_of_pos_right (Nat.succ_pos f), hatt⟩
    | error e =>
      rw [hatt] at h
      obtain ⟨j, hj1, hj2, hj3⟩ := ih (k + 1) A h
      exact ⟨j, Nat.le_of_succ_le hj1, by omega, hj3⟩

/-- The retry loop only ever throws the maximum-attempts error. -/
theorem attemptLoop_error (areSO : Str → Str → Bool) (ps : List Participant)
    (rand : Nat → Nat → Nat) :
    ∀ (fuel k : Nat) (e : JsError),
    attemptLoop areSO ps rand k fuel = .error e → e = .maxAttemptsExceeded := by
  intro fuel
  induction fuel with
  | zero => intro k e h; cases h; rfl
  | succ f ih =>
    intro k e h
    simp only [attemptLoop] at h
    cases hatt : generateValidAssignment areSO ps (rand k) with
    | ok a => rw [hatt] at h; cases h
    | error e2 => rw [hatt] at h; exact ih (k + 1) e h

/-- If every attempt in the fuel window fails, the retry loop exhausts its fuel. -/
theorem attemptLoop_exhaust (areSO : Str → Str → Bool) (ps : List Participant)
    (rand : Nat → Nat → Nat) :
    ∀ (fuel k : Nat),
    (∀ j, k ≤ j → j < k + fuel → ∃ e, generateValidAssignment areSO ps (rand j) = .error e) →
    attemptLoop areSO ps rand k fuel = .error .maxAttemptsExceeded := by
  intro fuel
  induction fuel with
  | zero => intro k h; rfl
  | succ f ih =>
    intro k h
    simp only [attemptLoop]
    obtain ⟨e, he⟩ := h k (Nat.le_refl k) (by omega)
    rw [he]
    exact ih (k + 1) (fun j hj1 hj2 => h j (by omega) (by omega))

/-- A key bound nowhere in the map looks up to nothing. -/
theorem jsGet_eq_none_of_forall (m : List (Str × Str)) (k : Str)
    (h : ∀ kv ∈ m, kv.1 ≠ k) : jsGet m k = none := by
  induction m with
  | nil => rfl
  | cons kv rest ih =>
    have h1 : jsGet rest k = none := ih (fun x hx => h x (List.mem_cons_of_mem kv hx))
    simp [jsGet, h1, h kv (List.mem_cons_self kv rest)]

/-- Every key of the significant-other map is the lowercased name of a participant. -/
theorem mkSoMap_keys (ps : List Participant) (kv : Str × Str) (h : kv ∈ mkSoMap ps) :
    kv.1 ∈ ps.map (fun p => jsToLower p.name) := by
  simp only [mkSoMap, List.mem_filterMap] at h
  obtain ⟨p, hp, hkv⟩ := h
  by_cases hso : p.significantOther = []
  · rw [if_pos hso] at hkv; cases hkv
  · rw [if_neg hso] at hkv
    cases hkv
    exact List.mem_map.mpr ⟨p, hp, rfl⟩

/-- Unfolding of the significant-other map on a cons cell. -/
theorem mkSoMap_cons (p : Participant) (rest : List Participant) :
    mkSoMap (p :: rest) =
      if p.significantOther = [] then mkSoMap rest
      else (jsToLower p.name, jsToLower p.significantOther) :: mkSoMap rest := by
  by_cases h : p.significantOther = []
  · simp [mkSoMap, List.filterMap_cons, h]
  · simp [mkSoMap, List.filterMap_cons, h]

/-- With case-insensitively distinct participant names, the significant-other
map sends the lowercased name of a participant with a nonempty SO field to
that lowercased SO field. -/
theorem jsGet_mkSoMap (ps : List Participant) (a : Participant)
    (hnodup : (ps.map (fun p => jsToLower p.name)).Nodup)
    (ha : a ∈ ps) (hso : a.significantOther ≠ []) :
    jsGet (mkSoMap ps) (jsToLower a.name) = some (jsToLower a.significantOther) := by
  induction ps with
  | nil => cases ha
  | cons p rest ih =>
    rw [List.map_cons, List.nodup_cons] at hnodup
    obtain ⟨hn1, hn2⟩ := hnodup
    rcases List.mem_cons.mp ha with rfl | hmem
    · have hnone : jsGet (mkSoMap rest) (jsToLower a.name) = none := by
        refine jsGet_eq_none_of_forall _ _ (fun kv hkv heq => hn1 ?_)
        rw [← heq]
        exact mkSoMap_keys rest kv hkv
      rw [mkSoMap_cons, if_neg hso]
      simp [jsGet, hnone]
    · have hrest := ih hn2 hmem
      rw [mkSoMap_cons]
      by_cases hp : p.significantOther = []
      · rw [if_pos hp]; exact hrest
      · rw [if_neg hp]
        simp [jsGet, hrest]

/-- In a duplicate-free list every member is counted exactly once. -/
theorem count_one_of_nodup_mem [BEq α] [LawfulBEq α] {l : List α} {a : α}
    (d : l.Nodup) (h : a ∈ l) : l.count a = 1 := by
  induction l with
  | nil => cases h
  | cons x xs ih =>
    rw [List.nodup_cons] at d
    obtain ⟨hx, hxs⟩ := d
    rw [List.count_cons]
    rcases List.mem_cons.mp h with rfl | hmem
    · rw [List.count_eq_zero.mpr hx]
      simp
    · have hne : a ≠ x := fun he => hx (he ▸ hmem)
      rw [ih hxs hmem]
      simp [hne, Ne.symm hne]

/-- Permutations preserve element counts, for any lawless BEq instance. -/
theorem perm_count_eq [BEq α] {l₁ l₂ : List α} (p : l₁.Perm l₂) (a : α) :
    l₁.count a = l₂.count a :=
  p.countP_eq _

/-- C1.  For every participant list of size at least 2 with pairwise-distinct
names on which generateSecretSantaAssignments returns normally, the returned
assignment list is a permutation of the participants: every participant name
appears exactly once as giver and exactly once as recipient, and no giver
equals their own recipient. -/
theorem C1_assignments_permutation (ps : List Participant) (rand : Nat → Nat → Nat)
    (A : List SecretSantaAssignment)
    (hlen : 2 ≤ ps.length) (hnodup : (ps.map (·.name)).Nodup)
    (hok : generateSecretSantaAssignments ps rand = .ok A) :
    A.length = ps.length ∧
    (∀ p ∈ ps, (A.map (·.giver)).count p.name = 1 ∧ (A.map (·.recipient)).count p.name = 1) ∧
    (∀ a ∈ A, a.giver ≠ a.recipient) := by
  rw [generateSecretSantaAssignments, if_neg (by omega)] at hok
  obtain ⟨j, _, _, hatt⟩ := attemptLoop_ok _ ps rand maxAttempts 0 A hok
  rw [generateValidAssignment] at hatt
  have hperm := fisherYates_perm (rand j) ps
  obtain ⟨hg, hr, hv⟩ := buildAssignments_ok _ ps _ A hperm.length_eq hatt
  refine ⟨?_, ?_, fun a ha => (hv a ha).1⟩
  · have := congrArg List.length hg
    simpa using this
  · intro p hp
    constructor
    · rw [hg]
      exact count_one_of_nodup_mem hnodup (List.mem_map_of_mem _ hp)
    · rw [hr, perm_count_eq (hperm.map (·.name))]
      exact count_one_of_nodup_mem hnodup (List.mem_map_of_mem _ hp)

/-- Closed instance of C1 on a concrete two-person run. -/
theorem C1_witness :
    2 ≤ ([⟨[65], [], []⟩, ⟨[66], [], []⟩] : List Participant).length ∧
    (([⟨[65], [], []⟩, ⟨[66], [], []⟩] : List Participant).map (·.name)).Nodup ∧
    ([⟨[65], [66], []⟩, ⟨[66], [65], []⟩] : List SecretSantaAssignment).length =
      ([⟨[65], [], []⟩, ⟨[66], [], []⟩] : List Participant).length := by
  refine ⟨by decide, by decide, ?_⟩
  exact (C1_assignments_permutation [⟨[65], [], []⟩, ⟨[66], [], []⟩] (fun _ _ => 0)
    [⟨[65], [66], []⟩, ⟨[66], [65], []⟩] (by decide) (by decide) (by decide)).1

/-- C5.  Exclusions are enforced symmetrically: on every successful pairing
run over participants whose lowercased names are pairwise distinct, if
participant a declared b as their excluded party (case-insensitively, and
whether or not b declared a), then neither the assignment a to b nor the
assignment b to a appears in the output. -/
theorem C5_symmetric_exclusions (ps : List Participant) (rand : Nat → Nat → Nat)
    (A : List SecretSantaAssignment) (a b : Participant)
    (hnodup : (ps.map (fun p => jsToLower p.name)).Nodup)
    (ha : a ∈ ps) (hso : a.significantOther ≠ [])
    (hdecl : jsToLower a.significantOther = jsToLower b.name)
    (hok : generateSecretSantaAssignments ps rand = .ok A) :
    ∀ asg ∈ A, ¬(asg.giver = a.name ∧ asg.recipient = b.name) ∧
      ¬(asg.giver = b.name ∧ asg.recipient = a.name) := by
  rw [generateSecretSantaAssignments] at hok
  split at hok
  · cases hok
  · obtain ⟨j, _, _, hatt⟩ := attemptLoop_ok _ ps rand maxAttempts 0 A hok
    rw [generateValidAssignment] at hatt
    have hperm := fisherYates_perm (rand j) ps
    obtain ⟨_, _, hv⟩ := buildAssignments_ok _ ps _ A hperm.length_eq hatt
    have hget : jsGet (mkSoMap ps) (jsToLower a.name) = some (jsToLower a.significantOther) :=
      jsGet_mkSoMap ps a hnodup ha hso
    intro asg hasg
    have hfalse := (hv asg hasg).2
    constructor
    · rintro ⟨hg, hr⟩
      rw [hg, hr] at hfalse
      simp [areSignificantOthers, hget, hdecl] at hfalse
    · rintro ⟨hg, hr⟩
      rw [hg, hr] at hfalse
      simp [areSignificantOthers, hget, hdecl] at hfalse

/-- Closed instance of C5: a four-person run where the first participant
excludes the second, applied to one concrete assignment of a successful run. -/
theorem C5_witness :
    ¬((⟨[65], [67], []⟩ : SecretSantaAssignment).giver = [65] ∧
        (⟨[65], [67], []⟩ : SecretSantaAssignment).recipient = [66]) ∧
    ¬((⟨[65], [67], []⟩ : SecretSantaAssignment).giver = [66] ∧
        (⟨[65], [67], []⟩ : SecretSantaAssignment).recipient = [65]) :=
  C5_symmetric_exclusions
    [⟨[65], [], [66]⟩, ⟨[66], [], []⟩, ⟨[67], [], []⟩, ⟨[68], [], []⟩]
    (fun _ i => if i = 3 then 1 else if i = 2 then 0 else 1)
    [⟨[65], [67], []⟩, ⟨[66], [68], []⟩, ⟨[67], [65], []⟩, ⟨[68], [66], []⟩]
    ⟨[65], [], [66]⟩ ⟨[66], [], []⟩
    (by decide) (by decide) (by decide) (by decide) (by decide)
    ⟨[65], [67], []⟩ (by decide)

/-- C7.  generateSecretSantaAssignments always terminates with an explicit
outcome: fewer than two participants is an immediate fatal error, a normal
return comes from a successful attempt among the first 1000, and if every
one of the 1000 shuffle-and-validate attempts fails the run ends with the
fatal maximum-attempts error rather than retrying further.  (The embedding
is structurally recursive on the 1000-attempt fuel, so the loop cannot run
unboundedly.) -/
theorem C7_bounded_attempts (ps : List Participant) (rand : Nat → Nat → Nat) :
    (ps.length < 2 → generateSecretSantaAssignments ps rand = .error .needTwoParticipants) ∧
    (∀ A, generateSecretSantaAssignments ps rand = .ok A →
      ∃ j, j < maxAttempts ∧
        generateValidAssignment (areSignificantOthers (mkSoMap ps)) ps (rand j) = .ok A) ∧
    ((2 ≤ ps.length ∧
        ∀ j, j < maxAttempts →
          ∃ e, generateValidAssignment (areSignificantOthers (mkSoMap ps)) ps (rand j) = .error e) →
      generateSecretSantaAssignments ps rand = .error .maxAttemptsExceeded) := by
  refine ⟨fun h => by rw [generateSecretSantaAssignments, if_pos h], ?_, ?_⟩
  · intro A hok
    rw [generateSecretSantaAssignments] at hok
    split at hok
    · cases hok
    · obtain ⟨j, _, hj, hatt⟩ := attemptLoop_ok _ ps rand maxAttempts 0 A hok
      exact ⟨j, by omega, hatt⟩
  · rintro ⟨hlen, hfail⟩
    rw [generateSecretSantaAssignments, if_neg (by omega)]
    exact attemptLoop_exhaust _ ps rand maxAttempts 0 (fun j _ hj => hfail j (by omega))

/-- Closed instance of C7: a mutually-excluding pair exhausts all 1000
attempts and ends in the fatal maximum-attempts error. -/
theorem C7_witness :
    generateSecretSantaAssignments [⟨[65], [], [66]⟩, ⟨[66], [], [65]⟩] (fun _ _ => 0) =
      .error .maxAttemptsExceeded :=
  (C7_bounded_attempts [⟨[65], [], [66]⟩, ⟨[66], [], [65]⟩] (fun _ _ => 0)).2.2
    ⟨by decide, fun j _ => ⟨.soAssignment, by decide⟩⟩

/-- C9 counterexample.  A participant whose exclusion field names someone who
does not exist among the participants (here Ghost, codes [71,104,111,115,116])
does not make the run fail: pairing proceeds and returns normally, so no
validation error is ever reported for the unresolvable reference. -/
theorem C9_counterexample :
    generateSecretSantaAssignments
      [⟨[65, 108, 105, 99, 101], [], [71, 104, 111, 115, 116]⟩, ⟨[66, 111, 98], [], []⟩]
      (fun _ _ => 0) =
    .ok [⟨[65, 108, 105, 99, 101], [66, 111, 98], []⟩,
         ⟨[66, 111, 98], [65, 108, 105, 99, 101], []⟩] := by
  decide

/-- C9 amended.  generateSecretSantaAssignments performs no validation of
exclusion references: the only errors it can report are the too-few-participants
error and the retry-exhaustion error, so an exclusion naming a non-participant
is silently ignored rather than rejected. -/
theorem C9_no_exclusion_validation (ps : List Participant) (rand : Nat → Nat → Nat)
    (e : JsError) (h : generateSecretSantaAssignments ps rand = .error e) :
    e = .needTwoParticipants ∨ e = .maxAttemptsExceeded := by
  rw [generateSecretSantaAssignments] at h
  split at h
  · cases h
    exact Or.inl rfl
  · exact Or.inr (attemptLoop_error _ ps rand maxAttempts 0 e h)

/-- Closed instance of C9 amended at a concrete erroring run. -/
theorem C9_witness :
    (JsError.needTwoParticipants = .needTwoParticipants ∨
      JsError.needTwoParticipants = .maxAttemptsExceeded) :=
  C9_no_exclusion_validation [] (fun _ _ => 0) .needTwoParticipants (by decide)

/-- Every participant list accepted by the data-row loop has nonempty names. -/
theorem parseRows_ok_names (nameIndex bioIndex soIndex : Nat) :
    ∀ (lines : List Str) (i : Nat) (ps : List Participant),
    parseRows nameIndex bioIndex soIndex lines i = .ok ps →
    ∀ p ∈ ps, p.name ≠ [] := by
  intro lines
  induction lines with
  | nil =>
    intro i ps h
    cases h
    intro p hp
    cases hp
  | cons line rest ih =>
    intro i ps h
    simp only [parseRows] at h
    split at h
    · exact ih (i + 1) ps h
    · split at h
      · cases h
      · split at h
        · cases h
        · next hname =>
          cases hrec : parseRows nameIndex bioIndex soIndex rest (i + 1) with
          | error e => rw [hrec] at h; cases h
          | ok tail =>
            rw [hrec] at h
            cases h
            intro p hp
            rcases List.mem_cons.mp hp with rfl | hmem
            · exact hname
            · exact ih (i + 1) tail hrec p hmem

/-- C8 counterexample.  parseCSV accepts two records whose names duplicate
each other: on the CSV content name,bio,so / Alice,a, / Alice,b, it returns
normally with the name Alice (codes [65,108,105,99,101]) twice, so duplicate
names are not rejected. -/
theorem C8_counterexample :
    parseCSV
      [110, 97, 109, 101, 44, 98, 105, 111, 44, 115, 111, 10,
       65, 108, 105, 99, 101, 44, 97, 44, 10,
       65, 108, 105, 99, 101, 44, 98, 44] =
    .ok [⟨[65, 108, 105, 99, 101], [97], []⟩, ⟨[65, 108, 105, 99, 101], [98], []⟩] := by
  decide

/-- A nonblank data row whose name field trims to empty forces the data-row
loop to throw: either an earlier row already throws, or the scan reaches the
offending row and throws its insufficient-columns or empty-name error. -/
theorem parseRows_error_of_empty_name (nameIndex bioIndex soIndex : Nat) :
    ∀ (lines : List Str) (i : Nat),
    (∃ line ∈ lines, jsTrim line ≠ [] ∧
      jsTrim ((parseCSVLine (jsTrim line)).getD nameIndex []) = []) →
    ∃ e, parseRows nameIndex bioIndex soIndex lines i = .error e := by
  intro lines
  induction lines with
  | nil =>
    intro i h
    obtain ⟨l2, hl2, _, _⟩ := h
    cases hl2
  | cons line rest ih =>
    intro i h
    simp only [parseRows]
    by_cases hblank : jsTrim line = []
    · rw [if_pos hblank]
      obtain ⟨l2, hl2, hne, hempty⟩ := h
      rcases List.mem_cons.mp hl2 with rfl | hmem
      · exact absurd hblank hne
      · exact ih (i + 1) ⟨l2, hmem, hne, hempty⟩
    · rw [if_neg hblank]
      by_cases hcols :
          (parseCSVLine (jsTrim line)).length < max nameIndex (max bioIndex soIndex) + 1
      · rw [if_pos hcols]
        exact ⟨_, rfl⟩
      · rw [if_neg hcols]
        by_cases hname : jsTrim ((parseCSVLine (jsTrim line)).getD nameIndex []) = []
        · rw [if_pos hname]
          exact ⟨_, rfl⟩
        · rw [if_neg hname]
          obtain ⟨l2, hl2, hne, hempty⟩ := h
          rcases List.mem_cons.mp hl2 with rfl | hmem
          · exact absurd hempty hname
          · obtain ⟨e, he⟩ := ih (i + 1) ⟨l2, hmem, hne, hempty⟩
            rw [he]
            exact ⟨e, rfl⟩

/-- C8 amended.  parseCSV rejects a record with a missing or empty name
field, with a fatal error raised before any pairing or cryptographic work:
whenever some nonblank data row has an empty trimmed name field at the
header-determined name index, parseCSV returns an error instead of a
participant list.  Duplicate names, however, are not rejected (see the
counterexample). -/
theorem C8_empty_name_rejected (csv : Str)
    (h : ∃ line ∈ (jsSplit 10 (jsTrim csv)).drop 1,
      jsTrim line ≠ [] ∧
      jsTrim ((parseCSVLine (jsTrim line)).getD
        (((jsSplit 44 ((jsSplit 10 (jsTrim csv)).getD 0 [])).map
          (fun hd => jsToLower (jsTrim hd))).indexOf nameHeader) []) = []) :
    ∃ e, parseCSV csv = .error e := by
  simp only [parseCSV]
  split
  · exact ⟨_, rfl⟩
  · split
    · exact ⟨_, rfl⟩
    · exact parseRows_error_of_empty_name _ _ _ _ 1 h

/-- Closed instance of C8 amended: the CSV name,bio,so / Alice,a, / ,b,
whose third line has an empty name field, is rejected with an error. -/
theorem C8_witness :
    ∃ e, parseCSV
      [110, 97, 109, 101, 44, 98, 105, 111, 44, 115, 111, 10,
       65, 108, 105, 99, 101, 44, 97, 44, 10,
       44, 98, 44] = .error e :=
  C8_empty_name_rejected
    [110, 97, 109, 101, 44, 98, 105, 111, 44, 115, 111, 10,
     65, 108, 105, 99, 101, 44, 97, 44, 10,
     44, 98, 44]
    (by decide)

/-- Alphabet lookup inverts the alphabet character of every sextet. -/
theorem charSextet_sextetChar : ∀ s < 64, charSextet (sextetChar s) = some s := by decide

/-- No sextet encodes to the padding character. -/
theorem sextetChar_ne_pad : ∀ s < 64, sextetChar s ≠ 61 := by decide

/-- Base64 decoding inverts base64 encoding on byte strings. -/
theorem decode_encode (l : Str) (h : ∀ b ∈ l, b < 256) : decodeB64 (encodeB64 l) = some l := by
  induction l using encodeB64.induct with
  | case1 => rfl
  | case2 a =>
    have ha : a < 256 := h a (by simp)
    have h1 := charSextet_sextetChar (a / 4) (by omega)
    have h2 := charSextet_sextetChar (a % 4 * 16) (by omega)
    simp [encodeB64, decodeB64, h1, h2]
    omega
  | case3 a b =>
    have ha : a < 256 := h a (by simp)
    have hb : b < 256 := h b (by simp)
    have h1 := charSextet_sextetChar (a / 4) (by omega)
    have h2 := charSextet_sextetChar (a % 4 * 16 + b / 16) (by omega)
    have h3 := charSextet_sextetChar (b % 16 * 4) (by omega)
    have hne := sextetChar_ne_pad (b % 16 * 4) (by omega)
    simp [encodeB64, decodeB64, h1, h2, h3, hne]
    omega
  | case4 a b c rest ih =>
    have ha : a < 256 := h a (by simp)
    have hb : b < 256 := h b (by simp)
    have hc : c < 256 := h c (by simp)
    have hrest : ∀ x ∈ rest, x < 256 := fun x hx => h x (by simp [hx])
    have h1 := charSextet_sextetChar (a / 4) (by omega)
    have h2 := charSextet_sextetChar (a % 4 * 16 + b / 16) (by omega)
    have h3 := charSextet_sextetChar (b % 16 * 4 + c / 64) (by omega)
    have h4 := charSextet_sextetChar (c % 64) (by omega)
    have hne3 := sextetChar_ne_pad (b % 16 * 4 + c / 64) (by omega)
    have hne4 := sextetChar_ne_pad (c % 64) (by omega)
    simp [encodeB64, decodeB64, h1, h2, h3, h4, hne3, hne4, ih hrest]
    omega

/-- Keystream masking preserves length. -/
theorem gcmMask_length (key iv : Str) : ∀ (i : Nat) (m : Str),
    (gcmMask key iv i m).length = m.length := by
  intro i m
  induction m generalizing i with
  | nil => rfl
  | cons b bs ih => simp [gcmMask, ih]

/-- Keystream masking keeps byte strings byte strings. -/
theorem gcmMask_lt (key iv : Str) : ∀ (i : Nat) (m : Str), (∀ b ∈ m, b < 256) →
    ∀ b ∈ gcmMask key iv i m, b < 256 := by
  intro i m
  induction m generalizing i with
  | nil => intro _ b hb; cases hb
  | cons x xs ih =>
    intro hm b hb
    rcases List.mem_cons.mp hb with rfl | hmem
    · have hx : x < 2 ^ 8 := hm x (List.mem_cons_self x xs)
      have hp : prfByte key iv i < 2 ^ 8 := Nat.mod_lt _ (by omega)
      exact Nat.xor_lt_two_pow hx hp
    · exact ih (i + 1) (fun y hy => hm y (List.mem_cons_of_mem x hy)) b hmem

/-- Keystream masking is an involution at every starting position. -/
theorem gcmMask_gcmMask (key iv : Str) : ∀ (i : Nat) (m : Str),
    gcmMask key iv i (gcmMask key iv i m) = m := by
  intro i m
  induction m generalizing i with
  | nil => rfl
  | cons b bs ih => simp [gcmMask, ih, Nat.xor_cancel_right]

/-- The authentication tag is 16 bytes. -/
theorem gcmTag_length (key iv c : Str) : (gcmTag key iv c).length = 16 := by
  simp [gcmTag]

/-- Every tag byte is a byte. -/
theorem gcmTag_lt (key iv c : Str) : ∀ b ∈ gcmTag key iv c, b < 256 := by
  intro b hb
  simp only [gcmTag, List.mem_map] at hb
  obtain ⟨t, _, rfl⟩ := hb
  exact Nat.mod_lt _ (by omega)

/-- Idealized AES-GCM decryption inverts encryption under the same key and IV. -/
theorem gcmDecrypt_gcmEncrypt (key iv m : Str) :
    gcmDecrypt key iv (gcmEncrypt key iv m) = some m := by
  have hc := gcmMask_length key iv 0 m
  have hlen : (gcmEncrypt key iv m).length = m.length + 16 := by
    simp [gcmEncrypt, gcmTag_length, hc]
  have hsub : (gcmMask key iv 0 m ++ gcmTag key iv (gcmMask key iv 0 m)).length - 16 =
      (gcmMask key iv 0 m).length := by
    simp [gcmTag_length]
  rw [gcmDecrypt, if_neg (by omega)]
  simp only [gcmEncrypt]
  rw [hsub, List.take_left, List.drop_left, if_pos rfl, gcmMask_gcmMask]

/-- Every byte of an encrypted package (salt, IV, ciphertext and tag) is a byte. -/
theorem package_bytes (data passphrase salt iv : Str)
    (hd : ∀ b ∈ data, b < 256) (hs : ∀ b ∈ salt, b < 256) (hi : ∀ b ∈ iv, b < 256) :
    ∀ b ∈ salt ++ iv ++ gcmEncrypt (deriveKey passphrase salt) iv data, b < 256 := by
  intro b hb
  rcases List.mem_append.mp hb with hb1 | hb2
  · rcases List.mem_append.mp hb1 with hbs | hbi
    · exact hs b hbs
    · exact hi b hbi
  · rcases List.mem_append.mp hb2 with hbm | hbt
    · exact gcmMask_lt _ _ 0 data hd b hbm
    · exact gcmTag_lt _ _ _ b hbt

/-- Decryption inverts encryption under the same passphrase, for every choice
of 16-byte salt and 12-byte IV over byte-string data. -/
theorem decryptData_encryptData (data passphrase salt iv : Str)
    (hsalt : salt.length = 16) (hiv : iv.length = 12)
    (hd : ∀ b ∈ data, b < 256) (hs : ∀ b ∈ salt, b < 256) (hi : ∀ b ∈ iv, b < 256) :
    decryptData (encryptData data passphrase salt iv) passphrase = .ok data := by
  rw [decryptData, encryptData,
    decode_encode _ (package_bytes data passphrase salt iv hd hs hi)]
  have h1 : (salt ++ iv ++ gcmEncrypt (deriveKey passphrase salt) iv data).take 16 = salt := by
    rw [List.append_assoc]
    exact List.take_left' hsalt
  have h2 : (salt ++ iv ++ gcmEncrypt (deriveKey passphrase salt) iv data).drop 16 =
      iv ++ gcmEncrypt (deriveKey passphrase salt) iv data := by
    rw [List.append_assoc]
    exact List.drop_left' hsalt
  have h3 : (iv ++ gcmEncrypt (deriveKey passphrase salt) iv data).take 12 = iv :=
    List.take_left' hiv
  have h4 : (salt ++ iv ++ gcmEncrypt (deriveKey passphrase salt) iv data).drop 28 =
      gcmEncrypt (deriveKey passphrase salt) iv data := by
    rw [show (28 : Nat) = 16 + 12 from rfl, ← List.drop_drop, h2]
    exact List.drop_left' hiv
  simp only [h1, h2, h3, h4, gcmDecrypt_gcmEncrypt]

/-- C2.  For every payload and passphrase over byte strings, and every choice
of the random 16-byte salt and 12-byte IV drawn during encryption, decrypting
the result of encryption with the same passphrase recovers the exact original
payload. -/
theorem C2_round_trip (payload secret salt iv : Str)
    (hsalt : salt.length = 16) (hiv : iv.length = 12)
    (hp : ∀ b ∈ payload, b < 256) (hs : ∀ b ∈ salt, b < 256) (hi : ∀ b ∈ iv, b < 256) :
    decryptData (encryptData payload secret salt iv) secret = .ok payload :=
  decryptData_encryptData payload secret salt iv hsalt hiv hp hs hi

/-- Closed instance of C2 at a concrete payload, secret, salt and IV. -/
theorem C2_witness :
    decryptData (encryptData [104, 105] [97] (List.replicate 16 0) (List.replicate 12 0)) [97] =
      .ok [104, 105] :=
  C2_round_trip [104, 105] [97] (List.replicate 16 0) (List.replicate 12 0)
    (by decide) (by decide) (by decide) (by decide) (by decide)

/-- C10.  Legacy v1.0 artifact reading is extensionally identical to the
current decryption path: decryptLegacyData delegates to decryptData, so for
every encrypted-data string and every passphrase the results agree exactly,
on success and on failure alike. -/
theorem C10_legacy_identical (encryptedData passphrase : Str) :
    decryptLegacyData encryptedData passphrase = decryptData encryptedData passphrase := rfl

/-- Hex digit codes are injective on digit values. -/
theorem hexDigitCode_inj : ∀ x < 16, ∀ y < 16, hexDigitCode x = hexDigitCode y → x = y := by
  decide

/-- Hex encoding is injective on byte strings. -/
theorem hexEncode_inj : ∀ (l₁ l₂ : Str), (∀ b ∈ l₁, b < 256) → (∀ b ∈ l₂, b < 256) →
    hexEncode l₁ = hexEncode l₂ → l₁ = l₂ := by
  intro l₁
  induction l₁ with
  | nil =>
    intro l₂ _ _ h
    cases l₂ with
    | nil => rfl
    | cons b bs => simp [hexEncode, hexByte] at h
  | cons a as ih =>
    intro l₂ h₁ h₂ h
    cases l₂ with
    | nil => simp [hexEncode, hexByte] at h
    | cons b bs =>
      simp only [hexEncode, hexByte, List.cons_append, List.nil_append, List.cons.injEq] at h
      obtain ⟨hd1, hd2, htail⟩ := h
      have ha : a < 256 := h₁ a (List.mem_cons_self a as)
      have hb : b < 256 := h₂ b (List.mem_cons_self b bs)
      have e1 : a / 16 % 16 = b / 16 % 16 :=
        hexDigitCode_inj _ (by omega) _ (by omega) hd1
      have e2 : a % 16 = b % 16 :=
        hexDigitCode_inj _ (by omega) _ (by omega) hd2
      have hab : a = b := by omega
      subst hab
      rw [ih bs (fun x hx => h₁ x (List.mem_cons_of_mem a hx))
        (fun x hx => h₂ x (List.mem_cons_of_mem a hx)) htail]

/-- The lookup key of a passphrase determines the passphrase, over byte strings. -/
theorem hashPassphrase_inj (p₁ p₂ : Str) (h₁ : ∀ b ∈ p₁, b < 256) (h₂ : ∀ b ∈ p₂, b < 256)
    (h : hashPassphrase p₁ = hashPassphrase p₂) : p₁ = p₂ :=
  hexEncode_inj p₁ p₂ h₁ h₂ h

/-- Every key of the artifact record map is the hashed secret of some entry. -/
theorem buildRecords_keys (entries : List ArtifactEntry) (kv : Str × Str)
    (h : kv ∈ buildRecords entries) : ∃ x ∈ entries, kv.1 = hashPassphrase x.secret := by
  induction entries with
  | nil => cases h
  | cons e rest ih =>
    rcases List.mem_cons.mp h with rfl | hmem
    · exact ⟨e, List.mem_cons_self e rest, rfl⟩
    · obtain ⟨x, hx, hk⟩ := ih hmem
      exact ⟨x, List.mem_cons_of_mem e hx, hk⟩

/-- With pairwise-distinct byte-string secrets, looking up the hashed secret
of an entry in the artifact record map finds exactly that entry's ciphertext. -/
theorem jsGet_buildRecords (entries : List ArtifactEntry) (e : ArtifactEntry)
    (hnodup : (entries.map (·.secret)).Nodup)
    (hbytes : ∀ x ∈ entries, ∀ b ∈ x.secret, b < 256)
    (he : e ∈ entries) :
    jsGet (buildRecords entries) (hashPassphrase e.secret) =
      some (encryptData e.payload e.secret e.salt e.iv) := by
  induction entries with
  | nil => cases he
  | cons x rest ih =>
    rw [List.map_cons, List.nodup_cons] at hnodup
    obtain ⟨hn1, hn2⟩ := hnodup
    rcases List.mem_cons.mp he with rfl | hmem
    · have hnone : jsGet (buildRecords rest) (hashPassphrase e.secret) = none := by
        refine jsGet_eq_none_of_forall _ _ (fun kv hkv heq => ?_)
        obtain ⟨y, hy, hk⟩ := buildRecords_keys rest kv hkv
        rw [hk] at heq
        have hys : y.secret = e.secret :=
          hashPassphrase_inj y.secret e.secret
            (hbytes y (List.mem_cons_of_mem e hy))
            (hbytes e (List.mem_cons_self e rest)) heq
        exact hn1 (hys ▸ List.mem_map_of_mem (·.secret) hy)
      simp [buildRecords, jsGet, hnone]
    · have hrest := ih hn2 (fun y hy => hbytes y (List.mem_cons_of_mem x hy)) hmem
      simp [buildRecords, jsGet, hrest]

/-- Base64 encoding of a nonempty byte string is nonempty. -/
theorem encodeB64_ne_nil (l : Str) (h : l ≠ []) : encodeB64 l ≠ [] := by
  rcases l with _ | ⟨a, _ | ⟨b, _ | ⟨c, rest⟩⟩⟩
  · exact absurd rfl h
  all_goals simp [encodeB64]

/-- An encrypted package is never the empty string. -/
theorem encryptData_ne_nil (data passphrase salt iv : Str) (hsalt : salt.length = 16) :
    encryptData data passphrase salt iv ≠ [] := by
  refine encodeB64_ne_nil _ (fun h0 => ?_)
  obtain ⟨h1, _⟩ := List.append_eq_nil.mp h0
  obtain ⟨h2, _⟩ := List.append_eq_nil.mp h1
  rw [h2] at hsalt
  cases hsalt

/-- C3.  For an artifact record map built so that each participant entry keys
the hash of its secret to the encryption of its payload under that secret,
with pairwise-distinct byte-string secrets and well-formed rows,
findAndDecryptAssignment with an entry's secret returns exactly that entry's
payload, and never the payload of any other entry whose payload differs. -/
theorem C3_lookup_correctness (entries : List ArtifactEntry) (e : ArtifactEntry)
    (hnodup : (entries.map (·.secret)).Nodup)
    (hwf : ∀ x ∈ entries, x.wf)
    (he : e ∈ entries) :
    findAndDecryptAssignment (buildRecords entries) e.secret = .ok (some e.payload) ∧
    (∀ x ∈ entries, x.payload ≠ e.payload →
      findAndDecryptAssignment (buildRecords entries) e.secret ≠ .ok (some x.payload)) := by
  obtain ⟨hsalt, hiv, hpb, hsb, hib, hcb⟩ := hwf e he
  have hfind : findAndDecryptAssignment (buildRecords entries) e.secret = .ok (some e.payload) := by
    rw [findAndDecryptAssignment,
      jsGet_buildRecords entries e hnodup (fun x hx => (hwf x hx).2.2.2.2.2) he]
    dsimp only
    rw [if_neg (encryptData_ne_nil e.payload e.secret e.salt e.iv hsalt),
      decryptData_encryptData e.payload e.secret e.salt e.iv hsalt hiv hpb hsb hib]
  refine ⟨hfind, fun x _ hx hcontra => ?_⟩
  rw [hfind] at hcontra
  exact hx (Option.some.inj (Except.ok.inj hcontra)).symm

/-- Closed instance of C3 on a concrete two-entry artifact. -/
theorem C3_witness :
    findAndDecryptAssignment
      (buildRecords [⟨[97], [104], List.replicate 16 0, List.replicate 12 0⟩,
                     ⟨[98], [105], List.replicate 16 0, List.replicate 12 0⟩])
      [97] = .ok (some [104]) :=
  (C3_lookup_correctness
    [⟨[97], [104], List.replicate 16 0, List.replicate 12 0⟩,
     ⟨[98], [105], List.replicate 16 0, List.replicate 12 0⟩]
    ⟨[97], [104], List.replicate 16 0, List.replicate 12 0⟩
    (by decide) (by decide) (by decide)).1

/-- C4 counterexample.  The three recovery failure causes do not surface as a
single undifferentiated outcome: an absent lookup key returns a null result
while a wrong-secret decryption throws an error, two externally observable
distinct outcomes at the recovery interface. -/
theorem C4_counterexample :
    findAndDecryptAssignment c4RecordsAbsent c4SecretB = .ok none ∧
    findAndDecryptAssignment c4RecordsWrongKey c4SecretB =
      .error (.findFailed (.decryptFailed .operationError)) ∧
    findAndDecryptAssignment c4RecordsAbsent c4SecretB ≠
      findAndDecryptAssignment c4RecordsWrongKey c4SecretB := by
  refine ⟨by decide, by decide, by decide⟩

/-- C4 amended.  Decryption failures are uniform: a wrong secret and a
tampered blob surface through decryptData as the same generic thrown failure
(the wrapped error is always the generic decryption failure, with the
wrong-secret and tampered cases concretely identical), but a lookup key
absent from the artifact yields a null result instead of a thrown error, an
externally observable distinction. -/
theorem C4_failure_modes :
    (∀ (records : List (Str × Str)) (p : Str),
      jsGet records (hashPassphrase p) = none →
        findAndDecryptAssignment records p = .ok none) ∧
    (∀ (enc p : Str) (e : JsError), decryptData enc p = .error e →
      e = .decryptFailed .invalidCharacter ∨ e = .decryptFailed .operationError) ∧
    findAndDecryptAssignment c4RecordsWrongKey c4SecretB =
      findAndDecryptAssignment c4RecordsTampered c4SecretA := by
  refine ⟨?_, ?_, by decide⟩
  · intro records p h
    rw [findAndDecryptAssignment, h]
  · intro enc p e h
    rw [decryptData] at h
    cases hdec : decodeB64 enc with
    | none =>
      rw [hdec] at h
      exact Or.inl (Except.error.inj h).symm
    | some comb =>
      rw [hdec] at h
      dsimp only at h
      cases hgcm : gcmDecrypt (deriveKey p (comb.take 16)) ((comb.drop 16).take 12)
          (comb.drop 28) with
      | none =>
        rw [hgcm] at h
        exact Or.inr (Except.error.inj h).symm
      | some d =>
        rw [hgcm] at h
        cases h

/-- Closed instance of C4 amended: an empty artifact returns the null outcome. -/
theorem C4_witness : findAndDecryptAssignment [] [] = .ok none :=
  C4_failure_modes.1 [] [] rfl

/-- A freshly drawn secret is never already in the accumulated set. -/
theorem genOneSecret_fresh (draw : Nat → Str) (acc : List Str) :
    ∀ (fuel t : Nat) (c : Str) (tNext : Nat),
    genOneSecret draw acc t fuel = some (c, tNext) → c ∉ acc := by
  intro fuel
  induction fuel with
  | zero => intro t c tNext h; cases h
  | succ f ih =>
    intro t c tNext h
    rw [genOneSecret] at h
    split at h
    · exact ih (t + 1) c tNext h
    · next hmem =>
      cases h
      exact hmem

/-- Accumulation preserves distinctness and adds exactly the requested count. -/
theorem genSecretsAux_nodup (draw : Nat → Str) :
    ∀ (n : Nat) (acc : List Str) (t : Nat) (l : List Str),
    acc.Nodup → genSecretsAux draw n acc t = some l →
    l.Nodup ∧ l.length = n + acc.length := by
  intro n
  induction n with
  | zero =>
    intro acc t l hacc h
    cases h
    simpa using hacc
  | succ m ih =>
    intro acc t l hacc h
    rw [genSecretsAux] at h
    cases hone : genOneSecret draw acc t secretMaxAttempts with
    | none => rw [hone] at h; cases h
    | some ct =>
      rw [hone] at h
      obtain ⟨c, tNext⟩ := ct
      have hfresh := genOneSecret_fresh draw acc secretMaxAttempts t c tNext hone
      have hnodup2 : (c :: acc).Nodup := List.nodup_cons.mpr ⟨hfresh, hacc⟩
      obtain ⟨h1, h2⟩ := ih (c :: acc) tNext l hnodup2 h
      exact ⟨h1, by simp at h2; omega⟩

/-- C6.  Whenever the secret generator returns normally, for every count and
every candidate stream, it has produced exactly count pairwise-distinct
secrets; uniqueness is enforced by checking each candidate against the set
produced so far and regenerating on collision, up to the bounded number of
attempts, whose exhaustion is the fatal failure outcome none. -/
theorem C6_unique_secrets (draw : Nat → Str) (count : Nat) (l : List Str)
    (h : generateSecrets draw count = some l) : l.length = count ∧ l.Nodup := by
  obtain ⟨h1, h2⟩ := genSecretsAux_nodup draw count [] 0 l List.nodup_nil h
  exact ⟨by simpa using h2, h1⟩

/-- Closed instance of C6 on a concrete stream of three distinct candidates. -/
theorem C6_witness : ([[0], [1], [2]] : List Str).length = 3 ∧ ([[0], [1], [2]] : List Str).Nodup :=
  C6_unique_secrets (fun t => [t]) 3 [[0], [1], [2]] (by decide)

